import Mathlib

/-!
Shallow embedding of `src/provisioner/aws_ec2_provisioning.py`.

The external AWS API (boto3 calls, waiters) is modelled as an oracle
(`Env`) that yields, for every call site and attempt number, either a
successful answer or an error message, mirroring the fact that every
boto3 call can raise.  All functions of the provisioner are translated
directly from the Python source; Python `None`-able values become
`Option`, Python exceptions become `Except String`, the implicit
`return None` fall-through of `_launch_spot_instance` becomes an
`Option` around the whole outcome, and thread-pool completion order
becomes an explicit permutation parameter.
-/

namespace Provisioner

/-- Python truthiness of an `Optional[str]`: `None` and `""` are falsy. -/
def truthyStr : Option String → Bool
  | none => false
  | some s => !s.isEmpty

/-- Python truthiness of an `Optional[Dict[str, str]]`: `None` and `{}` are falsy. -/
def truthyTags : Option (List (String × String)) → Bool
  | none => false
  | some l => !l.isEmpty

/-- Python `str(x)` for an `Optional[str]`, as Python would interpolate it. -/
def nameStr : Option String → String
  | none => "None"
  | some s => s

/-- The `EC2InstanceConfig` dataclass (source lines 22-39), with the same defaults. -/
structure EC2InstanceConfig where
  instance_type : String
  name : Option String := none
  image_id : Option String := none
  key_name : Option String := none
  security_group_ids : Option (List String) := none
  subnet_id : Option String := none
  user_data : Option String := none
  tags : Option (List (String × String)) := none
  volume_size : Int := 8
  volume_type : String := "gp3"
  iam_instance_profile : Option String := none
  spot_instance : Bool := true
  spot_max_price : Option String := none
  spot_max_retries : Int := 3
  spot_retry_delay : Int := 30
deriving DecidableEq, Repr

instance : Inhabited EC2InstanceConfig := ⟨{ instance_type := "" }⟩

/-- The default AMI filled in by `_set_defaults` (source line 368). -/
def defaultAmi : String := "ami-0ae8595e2aff47037"

/-- The default tag dictionary filled in by `_set_defaults` (source lines 371-376). -/
def defaultTags (spot : Bool) : List (String × String) :=
  [("Environment", "Development"), ("Project", "AutoProvisioned"),
   ("InstanceType", if spot then "Spot" else "OnDemand")]

/-- Function `EC2Provisioner._set_defaults` (source lines 354-378) as the pure
function it computes: the config it returns.  `now` stands for
`int(time.time())`.  The deep-copy-then-mutate aspect is modelled
separately by `set_defaults_state`. -/
def set_defaults (now : Nat) (config : EC2InstanceConfig) : EC2InstanceConfig :=
  let config :=
    if truthyStr config.name then config
    else { config with name := some (config.instance_type ++ "-" ++ toString now) }
  let config :=
    if truthyStr config.image_id then config
    else { config with image_id := some defaultAmi }
  if truthyTags config.tags then config
  else { config with tags := some (defaultTags config.spot_instance) }

/-- A heap of Python `EC2InstanceConfig` objects, addressed by index;
used to model the in-place mutation performed by `_set_defaults`. -/
abbrev ConfigStore := List EC2InstanceConfig

/-- In-place mutation of the object at address `a` of the store
(a Python attribute assignment `config.field = value`). -/
def storeUpdate (store : ConfigStore) (a : Nat)
    (f : EC2InstanceConfig → EC2InstanceConfig) : ConfigStore :=
  store.set a (f (store.getD a default))

/-- Function `EC2Provisioner._set_defaults` (source lines 354-378) with Python's
object mutation made explicit: `copy.deepcopy(config)` allocates a fresh
object at the end of the store, and each `if not config.field: config.field = ...`
statement mutates that fresh object in place.  Returns the updated store
and the address of the returned (copied) config. -/
def set_defaults_state (now : Nat) (store : ConfigStore) (addr : Nat) :
    ConfigStore × Nat :=
  let c := store.length
  let store1 := store ++ [store.getD addr default]
  let store2 := storeUpdate store1 c (fun cfg =>
    if truthyStr cfg.name then cfg
    else { cfg with name := some (cfg.instance_type ++ "-" ++ toString now) })
  let store3 := storeUpdate store2 c (fun cfg =>
    if truthyStr cfg.image_id then cfg
    else { cfg with image_id := some defaultAmi })
  let store4 := storeUpdate store3 c (fun cfg =>
    if truthyTags cfg.tags then cfg
    else { cfg with tags := some (defaultTags cfg.spot_instance) })
  (store4, c)

/-- Function `_create_tags` (source lines 100-112): the tag list attached to
instances and volumes.  `today` stands for `time.strftime` of the
current date; the `instance_id` parameter of the source is unused by
its body and is therefore not a parameter here. -/
def create_tags (config : EC2InstanceConfig) (today : String) :
    List (String × String) :=
  [("Name", nameStr config.name), ("CreatedBy", "EC2Provisioner"),
   ("CreationDate", today)] ++ config.tags.getD []

/-- What `Describe`/the `ec2_resource.Instance` object yields back about
a running instance (source lines 294-296). -/
structure InstanceInfo where
  publicIp : Option String
  privateIp : Option String
  state : String
deriving DecidableEq, Repr

/-- Oracle for the external AWS API.  Each field models one boto3 call
site; the `Nat` argument is the spot attempt number during which the
call is made (`0` for the single on-demand attempt), so that distinct
retry attempts may observe distinct outcomes.  An `Except.error`
models the call raising an exception. -/
structure Env where
  today : String
  runInstances : Except String String
  requestSpot : Nat → Except String String
  waitFulfilled : Nat → String → Except String Unit
  describeSpot : Nat → String → Except String String
  waitRunning : Nat → String → Except String Unit
  volumes : Nat → String → Except String (List String)
  tagVolume : Nat → String → List (String × String) → Except String Unit
  tagInstance : Nat → String → List (String × String) → Except String Unit
  describeInstance : Nat → String → Except String InstanceInfo

/-- The result dictionary built by the provisioner (success shape at
source lines 291-299, failure shape at lines 162-166); absent keys are
`none`. The `mode` field is the `'instance_type'` result key
(`"spot"` / `"on-demand"`). -/
structure ProvisioningResult where
  name : Option String
  status : String
  error : Option String := none
  instance_id : Option String := none
  public_ip : Option String := none
  private_ip : Option String := none
  state : Option String := none
  mode : Option String := none
  spot_request_id : Option String := none
deriving DecidableEq, Repr

/-- Observable side effects of one acquisition: the backoff sleeps
performed (`time.sleep(retry_delay)`, line 274), the
`cancel_spot_instance_requests` calls issued (line 262, recorded as
(attempt number, spot request id) — recorded whether or not the cancel
call itself succeeds, since its own failure is swallowed), and the
number of `request_spot_instances` calls made (line 217). -/
structure Trace where
  sleeps : List Int := []
  cancels : List (Nat × String) := []
  requests : Nat := 0
deriving DecidableEq, Repr

/-- Function `EC2Provisioner._finalize_instance` (source lines 279-302): tag every
attached volume (an error here propagates — this loop is not wrapped in
a `try`), then read the instance attributes and build the success
result.  `attempt` records which spot attempt (or `0`) is finalizing. -/
def finalize_instance (env : Env) (attempt : Nat) (config : EC2InstanceConfig)
    (instanceId : String) (mode : String) : Except String ProvisioningResult := do
  let vols ← env.volumes attempt instanceId
  vols.forM (fun v => env.tagVolume attempt v (create_tags config env.today))
  let info ← env.describeInstance attempt instanceId
  pure { name := config.name, instance_id := some instanceId,
         public_ip := info.publicIp, private_ip := info.privateIp,
         state := some info.state, status := "success", mode := some mode }

/-- Outcome of the `try:` body of one iteration of the spot retry loop
(source lines 199-252): either a success result was returned, or some
step raised; on failure we carry the value the Python local
`spot_request_id` has at the `except` handler (it retains its value
from an earlier iteration when `request_spot_instances` itself fails,
because the check at line 259 is `if 'spot_request_id' in locals()`). -/
inductive AttemptOutcome where
  | success : ProvisioningResult → AttemptOutcome
  | failure : Option String → String → AttemptOutcome
deriving DecidableEq, Repr

/-- One iteration of the `try:` body of `_launch_spot_instance`
(source lines 199-252).  `lastReq` is the value of the Python local
`spot_request_id` on entry to the iteration. -/
def spotAttempt (env : Env) (config : EC2InstanceConfig) (attempt : Nat)
    (lastReq : Option String) : AttemptOutcome :=
  match env.requestSpot attempt with
  | .error e => .failure lastReq e
  | .ok reqId =>
    match env.waitFulfilled attempt reqId with
    | .error e => .failure (some reqId) e
    | .ok _ =>
      match env.describeSpot attempt reqId with
      | .error e => .failure (some reqId) e
      | .ok instanceId =>
        match env.waitRunning attempt instanceId with
        | .error e => .failure (some reqId) e
        | .ok _ =>
          match finalize_instance env attempt config instanceId "spot" with
          | .error e => .failure (some reqId) e
          | .ok r =>
            let r := { r with spot_request_id := some reqId }
            let _ := env.tagInstance attempt instanceId
              (create_tags config env.today)
            .success r

/-- The error raised when the final spot attempt fails (source line 270). -/
def exhaustMsg (maxRetries : Nat) (name : Option String) (e : String) : String :=
  "All " ++ toString maxRetries ++ " spot instance attempts failed for " ++
    nameStr name ++ ". Last error: " ++ e

/-- The `for attempt in range(max_retries)` loop of
`_launch_spot_instance` (source lines 198-277), written as structural
recursion on the attempts remaining (`left + attempt = maxRetries`
whenever the loop is entered from `launch_spot_instance`).  The outer
`Option` is `none` exactly when the loop runs out of iterations without
returning or raising — Python's implicit `return None`.  `some (.error e)`
is the function raising `e`; a raise from `time.sleep` on a negative
delay (a Python `ValueError`) is also modelled.  The `except` handler
cancels the request id held by the Python local `spot_request_id`
whenever that local is bound — including a stale id from an earlier
iteration. -/
def spotLoop (env : Env) (config : EC2InstanceConfig) (maxRetries : Nat) :
    Nat → Nat → Int → Option String → Trace →
    Option (Except String ProvisioningResult) × Trace
  | 0, _, _, _, tr => (none, tr)
  | left + 1, attempt, delay, lastReq, tr =>
    let tr := { tr with requests := tr.requests + 1 }
    match spotAttempt env config attempt lastReq with
    | .success r => (some (.ok r), tr)
    | .failure lastReq' e =>
      let tr :=
        match lastReq' with
        | some rid => { tr with cancels := tr.cancels ++ [(attempt, rid)] }
        | none => tr
      if attempt = maxRetries - 1 then
        (some (.error (exhaustMsg maxRetries config.name e)), tr)
      else if delay < 0 then
        (some (.error "sleep length must be non-negative"), tr)
      else
        spotLoop env config maxRetries left (attempt + 1)
          (min (delay * 2) 120) lastReq'
          { tr with sleeps := tr.sleeps ++ [delay] }

/-- Function `EC2Provisioner._launch_spot_instance` (source lines 193-277).
`range(max_retries)` on a Python `int` iterates `max_retries.toNat`
times. -/
def launch_spot_instance (env : Env) (config : EC2InstanceConfig) :
    Option (Except String ProvisioningResult) × Trace :=
  spotLoop env config config.spot_max_retries.toNat
    config.spot_max_retries.toNat 0 config.spot_retry_delay none {}

/-- Function `EC2Provisioner._launch_on_demand_instance` (source lines 168-191). -/
def launch_on_demand_instance (env : Env) (config : EC2InstanceConfig) :
    Except String ProvisioningResult := do
  let instanceId ← env.runInstances
  let _ ← env.waitRunning 0 instanceId
  finalize_instance env 0 config instanceId "on-demand"

/-- Function `EC2Provisioner.provision_instance` (source lines 114-166): apply
defaults, dispatch on `spot_instance`, and convert any raised exception
into a failed result dictionary carrying the (defaulted) config's name.
The returned value is `none` exactly when `_launch_spot_instance`
returns Python `None`. -/
def provision_instance (env : Env) (now : Nat) (config0 : EC2InstanceConfig) :
    Option ProvisioningResult × Trace :=
  let config := set_defaults now config0
  if config.spot_instance then
    match launch_spot_instance env config with
    | (some (.ok r), tr) => (some r, tr)
    | (some (.error e), tr) =>
      (some { name := config.name, status := "failed", error := some e }, tr)
    | (none, tr) => (none, tr)
  else
    match launch_on_demand_instance env config with
    | .ok r => (some r, {})
    | .error e =>
      (some { name := config.name, status := "failed", error := some e }, {})

/-- Function `EC2Provisioner.terminate_instance` (source lines 380-396): the
`terminate_instances` call either succeeds (`True`) or raises, in which
case the exception is caught and `False` returned; the call's outcome
is the oracle `termOk`. -/
def terminate_instance (termOk : String → Bool) (instanceId : String) : Bool :=
  termOk instanceId

/-- Insertion into a Python `dict` held as an assoc list in insertion
order: an existing key keeps its position and gets the new value, a new
key is appended. -/
def dictInsert (d : List (String × Bool)) (k : String) (v : Bool) :
    List (String × Bool) :=
  if d.any (fun p => p.1 = k) then
    d.map (fun p => if p.1 = k then (k, v) else p)
  else d ++ [(k, v)]

/-- Function `EC2Provisioner.cleanup_instances` (source lines 398-426): one
future per list element, `results[instance_id] = future.result()` in
completion order `order` (a permutation of the submission indices).
`terminate_instance` never raises, so the defensive `except` branch
(lines 422-424) is unreachable. -/
def cleanup_instances (termOk : String → Bool) (instance_ids : List String)
    (order : List Nat) : List (String × Bool) :=
  order.foldl (fun d i =>
    dictInsert d (instance_ids.getD i "")
      (terminate_instance termOk (instance_ids.getD i ""))) []

/-! ### Concrete test environments and configs -/

/-- An environment in which every API call raises. -/
def envAllFail : Env :=
  { today := "2025-01-01", runInstances := .error "rifail",
    requestSpot := fun _ => .error "reqfail",
    waitFulfilled := fun _ _ => .error "wffail",
    describeSpot := fun _ _ => .error "dsfail",
    waitRunning := fun _ _ => .error "wrfail",
    volumes := fun _ _ => .error "volfail",
    tagVolume := fun _ _ _ => .error "tvfail",
    tagInstance := fun _ _ _ => .error "tifail",
    describeInstance := fun _ _ => .error "difail" }

/-- An environment in which every API call succeeds. -/
def envAllOk : Env :=
  { today := "2025-01-01", runInstances := .ok "i0",
    requestSpot := fun _ => .ok "r1",
    waitFulfilled := fun _ _ => .ok (),
    describeSpot := fun _ _ => .ok "i1",
    waitRunning := fun _ _ => .ok (),
    volumes := fun _ _ => .ok ["v1"],
    tagVolume := fun _ _ _ => .ok (),
    tagInstance := fun _ _ _ => .ok (),
    describeInstance := fun _ _ => .ok ⟨some "1.2.3.4", some "10.0.0.1", "running"⟩ }

/-- Everything succeeds except tagging the attached volume during
finalization. -/
def envVolTagFail : Env := { envAllOk with tagVolume := fun _ _ _ => .error "tagboom" }

/-- Attempt 0 obtains a spot request id and then fails waiting for
fulfillment; attempt 1 fails inside `request_spot_instances` itself, so
no id is obtained in attempt 1. -/
def envStale : Env :=
  { envAllFail with
    requestSpot := fun a => if a = 0 then .ok "r1" else .error "req2" }

/-- A spot config whose retry loop body never executes (`range(0)`). -/
def cfgZeroRetries : EC2InstanceConfig :=
  { instance_type := "t3.micro", name := some "n", spot_max_retries := 0 }

/-- A spot config with a single allowed attempt. -/
def cfgOneRetry : EC2InstanceConfig :=
  { instance_type := "t3.micro", name := some "n", spot_max_retries := 1 }

/-- A spot config with two allowed attempts and a short backoff. -/
def cfgTwoRetries : EC2InstanceConfig :=
  { instance_type := "t3.micro", name := some "n", spot_max_retries := 2,
    spot_retry_delay := 1 }

/-- A spot config whose configured initial retry delay exceeds the 120
cap. -/
def cfgDelay121 : EC2InstanceConfig :=
  { instance_type := "t3.micro", name := some "n", spot_retry_delay := 121 }

/-- A fully specified config: name, image id and tags all present. -/
def cfgFull : EC2InstanceConfig :=
  { instance_type := "t3.micro", name := some "n", image_id := some "ami-1",
    tags := some [("k", "v")] }

/-! ### C8: defaults never mutate the caller's config -/

/-- Updating via `storeUpdate` leaves every other address untouched. -/
theorem storeUpdate_getElem?_ne (store : ConfigStore) (a : Nat)
    (f : EC2InstanceConfig → EC2InstanceConfig) (i : Nat) (h : i ≠ a) :
    (storeUpdate store a f)[i]? = store[i]? :=
  List.getElem?_set_ne (fun hh => h hh.symm)

/-- Updating via `storeUpdate` preserves the store's size. -/
theorem storeUpdate_length (store : ConfigStore) (a : Nat)
    (f : EC2InstanceConfig → EC2InstanceConfig) :
    (storeUpdate store a f).length = store.length := by
  simp [storeUpdate]

/-- Reading back the address just mutated by `storeUpdate`. -/
theorem storeUpdate_getD (store : ConfigStore) (a : Nat)
    (f : EC2InstanceConfig → EC2InstanceConfig) (h : a < store.length) :
    (storeUpdate store a f).getD a default = f (store.getD a default) := by
  unfold storeUpdate
  rw [List.getD_eq_getElem?_getD, List.getElem?_set_eq_of_lt _ h]
  rfl

/-- Claim C8: applying defaults leaves the caller's original spec
unchanged in every field — `_set_defaults` deep-copies the config and
mutates only the copy, and the copy it returns is exactly the pure
copy-then-fill function applied to the original. -/
theorem C8_set_defaults_frame (now : Nat) (store : ConfigStore) (addr i : Nat)
    (hi : i < store.length) :
    ((set_defaults_state now store addr).1)[i]? = store[i]? ∧
    ((set_defaults_state now store addr).1).getD (set_defaults_state now store addr).2 default
      = set_defaults now (store.getD addr default) := by
  have hne : i ≠ store.length := Nat.ne_of_lt hi
  constructor
  · simp only [set_defaults_state]
    rw [storeUpdate_getElem?_ne _ _ _ _ hne, storeUpdate_getElem?_ne _ _ _ _ hne,
        storeUpdate_getElem?_ne _ _ _ _ hne, List.getElem?_append]
    simp [hi]
  · simp only [set_defaults_state]
    have l1 : store.length < (store ++ [store.getD addr default]).length := by simp
    have e1 : (store ++ [store.getD addr default]).getD store.length default
        = store.getD addr default := by
      rw [List.getD_eq_getElem?_getD, List.getElem?_concat_length]
      rfl
    rw [storeUpdate_getD _ _ _ (by rw [storeUpdate_length, storeUpdate_length]; exact l1),
        storeUpdate_getD _ _ _ (by rw [storeUpdate_length]; exact l1),
        storeUpdate_getD _ _ _ l1, e1]
    rfl

/-- Witness for C8 at a concrete store. -/
theorem C8_set_defaults_frame_witness :
    (0 : Nat) < ([cfgFull, cfgZeroRetries] : ConfigStore).length ∧
    ((set_defaults_state 7 [cfgFull, cfgZeroRetries] 1).1)[0]? = some cfgFull :=
  ⟨by decide,
   by
    have h := (C8_set_defaults_frame 7 [cfgFull, cfgZeroRetries] 1 0 (by decide)).1
    rw [h]
    rfl⟩

/-! ### C9: defaulting is the identity on fully specified configs -/

/-- Claim C9: on a config whose name, image id and tags are all present
(truthy), `_set_defaults` returns it unchanged, and a second application
changes nothing either. -/
theorem C9_set_defaults_idempotent (now later : Nat) (config : EC2InstanceConfig)
    (hn : truthyStr config.name = true)
    (hi : truthyStr config.image_id = true)
    (ht : truthyTags config.tags = true) :
    set_defaults now config = config ∧
    set_defaults later (set_defaults now config) = config := by
  have h1 : set_defaults now config = config := by
    simp [set_defaults, hn, hi, ht]
  refine ⟨h1, ?_⟩
  rw [h1]
  simp [set_defaults, hn, hi, ht]

/-- Witness for C9 at a concrete fully specified config. -/
theorem C9_set_defaults_idempotent_witness :
    truthyStr cfgFull.name = true ∧ set_defaults 3 (set_defaults 2 cfgFull) = cfgFull :=
  ⟨by decide, (C9_set_defaults_idempotent 2 3 cfgFull (by decide) (by decide) (by decide)).2⟩

/-! ### C2: the acquisition boundary, evaluated at the failing input -/

/-- Claim C2 (code bug): with `spot_instance = True` and
`spot_max_retries = 0` the retry loop body of `_launch_spot_instance`
never runs, the function falls off its end returning Python `None`, and
`provision_instance` passes that `None` through — contradicting its own
docstring (and the claim) that it returns a dictionary with a
`success`/`failed` status. -/
theorem C2_provision_none_at_zero_retries :
    (provision_instance envAllFail 0 cfgZeroRetries).1 = none := rfl

/-! ### C1 counterexample: one spec can yield two results -/

/-- Claim C3 counterexample: the instance is running (`waitRunning`
succeeded) but tagging its attached volume inside
`_finalize_instance` raises; that error propagates out of finalization,
consumes the only spot attempt, and the acquisition returns a failed —
not success — result. -/
theorem C3_volume_tag_failure_fails :
    (provision_instance envVolTagFail 0 cfgOneRetry).1
      = some { name := some "n", status := "failed",
               error := some "All 1 spot instance attempts failed for n. Last error: tagboom" } := rfl

/-! ### C4 counterexample: initial delay above the cap -/

/-- Claim C4 counterexample: with a configured initial delay of 121 the
slept sequence is `[121, 120]` — it exceeds the 120 bound and is not
non-decreasing (the first slept delay is never capped). -/
theorem C4_delay_above_cap :
    ((launch_spot_instance envAllFail cfgDelay121).2).sleeps = [121, 120] ∧
    ¬ (((launch_spot_instance envAllFail cfgDelay121).2).sleeps).Chain' (· ≤ ·) ∧
    ¬ (∀ x ∈ ((launch_spot_instance envAllFail cfgDelay121).2).sleeps, x ≤ 120) := by
  have hs : ((launch_spot_instance envAllFail cfgDelay121).2).sleeps = [121, 120] := rfl
  refine ⟨hs, ?_, ?_⟩ <;> rw [hs]
  · rw [List.chain'_cons]
    intro h
    exact absurd h.1 (by decide)
  · decide

/-! ### C5 counterexample: stale spot request id is re-cancelled -/

/-- Claim C5 counterexample: attempt 0 obtains id `"r1"` and fails, so
`"r1"` is cancelled; attempt 1 obtains no id (`request_spot_instances`
raises) yet a cancellation call is still issued — for the stale `"r1"`
— because the Python local `spot_request_id` is still bound from the
previous iteration. -/
theorem C5_stale_cancel :
    ((launch_spot_instance envStale cfgTwoRetries).2).cancels = [(0, "r1"), (1, "r1")] ∧
    envStale.requestSpot 1 = Except.error "req2" := ⟨rfl, rfl⟩

/-! ### C3 amended: the instance-level tag call never affects the result -/

/-- Finalization (`_finalize_instance`) never consults the instance-level tag call. -/
theorem finalize_instance_tagInstance (env : Env)
    (f : Nat → String → List (String × String) → Except String Unit)
    (attempt : Nat) (config : EC2InstanceConfig) (instanceId mode : String) :
    finalize_instance { env with tagInstance := f } attempt config instanceId mode
      = finalize_instance env attempt config instanceId mode := rfl

/-- One spot attempt is unaffected by the outcome of the post-hoc
instance tagging (its exception is caught and only logged). -/
theorem spotAttempt_tagInstance (env : Env)
    (f : Nat → String → List (String × String) → Except String Unit)
    (config : EC2InstanceConfig) (attempt : Nat) (lastReq : Option String) :
    spotAttempt { env with tagInstance := f } config attempt lastReq
      = spotAttempt env config attempt lastReq := rfl

/-- The spot retry loop is unaffected by the outcome of the post-hoc
instance tagging. -/
theorem spotLoop_tagInstance (env : Env)
    (f : Nat → String → List (String × String) → Except String Unit)
    (config : EC2InstanceConfig) (m : Nat) :
    ∀ (left attempt : Nat) (delay : Int) (lastReq : Option String) (tr : Trace),
    spotLoop { env with tagInstance := f } config m left attempt delay lastReq tr
      = spotLoop env config m left attempt delay lastReq tr := by
  intro left
  induction left with
  | zero => intro attempt delay lastReq tr; rfl
  | succ n ih =>
    intro attempt delay lastReq tr
    simp only [spotLoop, spotAttempt_tagInstance]
    cases spotAttempt env config attempt lastReq with
    | success r => rfl
    | failure lr e =>
      cases lr with
      | none =>
        split_ifs <;> first | rfl | exact ih _ _ _ _
      | some rid =>
        split_ifs <;> first | rfl | exact ih _ _ _ _

/-- Claim C3 (amended): once the resource is acquired, the post-hoc
instance-level tag call (spot path, wrapped in its own `try`) can
neither change the returned result nor trigger a retry — the whole of
`provision_instance` is literally independent of that call's outcome.
(The per-volume tagging of finalization is NOT covered: its failure
propagates, see `C3_volume_tag_failure_fails`.) -/
theorem C3_instance_tag_failure_nonfatal (env : Env)
    (f : Nat → String → List (String × String) → Except String Unit)
    (now : Nat) (config : EC2InstanceConfig) :
    provision_instance { env with tagInstance := f } now config
      = provision_instance env now config := by
  have hs : launch_spot_instance { env with tagInstance := f } (set_defaults now config)
      = launch_spot_instance env (set_defaults now config) := by
    unfold launch_spot_instance
    exact spotLoop_tagInstance env f (set_defaults now config) _ _ _ _ _ _
  have ho : launch_on_demand_instance { env with tagInstance := f } (set_defaults now config)
      = launch_on_demand_instance env (set_defaults now config) := rfl
  simp only [provision_instance, hs, ho]

/-! ### C4 amended: backoff shape for initial delays within the cap -/

/-- Shifting the doubling-with-cap sequence by one step. -/
theorem min_double_cap (d : Int) (hd : 0 ≤ d) (k : Nat) :
    min (min (d * 2) 120 * 2 ^ k) 120 = min (d * 2 ^ (k + 1)) 120 := by
  have hpow : (1 : Int) ≤ 2 ^ k := one_le_pow₀ (by norm_num)
  rcases le_total (d * 2) 120 with h | h
  · rw [min_eq_left h]
    congr 1
    rw [pow_succ]
    ring
  · rw [min_eq_right h]
    have h1 : (120 : Int) ≤ 120 * 2 ^ k := le_mul_of_one_le_right (by norm_num) hpow
    rw [min_eq_right h1]
    have h2 : (120 : Int) ≤ d * 2 ^ (k + 1) := by
      have : d * 2 ≤ d * 2 * 2 ^ k :=
        le_mul_of_one_le_right (by linarith) hpow
      calc (120 : Int) ≤ d * 2 := h
        _ ≤ d * 2 * 2 ^ k := this
        _ = d * 2 ^ (k + 1) := by rw [pow_succ]; ring
    rw [min_eq_right h2]

/-- The sleeps performed by the spot retry loop, entered with a
non-negative delay `d ≤ 120`, extend the incoming trace by a prefix of
the capped doubling sequence `k ↦ min (d * 2 ^ k) 120`. -/
theorem spotLoop_sleeps (env : Env) (config : EC2InstanceConfig) (m : Nat) :
    ∀ (left attempt : Nat) (d : Int) (lastReq : Option String) (tr : Trace),
    0 ≤ d → d ≤ 120 →
    ∃ n, ((spotLoop env config m left attempt d lastReq tr).2).sleeps
      = tr.sleeps ++ (List.range n).map (fun k => min (d * 2 ^ k) 120) := by
  intro left
  induction left with
  | zero =>
    intro attempt d lastReq tr h0 h120
    exact ⟨0, by simp [spotLoop]⟩
  | succ n ih =>
    intro attempt d lastReq tr h0 h120
    simp only [spotLoop]
    cases spotAttempt env config attempt lastReq with
    | success r => exact ⟨0, by simp⟩
    | failure lr e =>
      dsimp only
      cases lr with
      | none =>
        split_ifs with h1 h2
        · exact ⟨0, by simp⟩
        · exact absurd h2 (not_lt.mpr h0)
        · obtain ⟨nn, hnn⟩ := ih (attempt + 1) (min (d * 2) 120) none
            ⟨tr.sleeps ++ [d], tr.cancels, tr.requests + 1⟩
            (le_min (by linarith) (by norm_num)) (min_le_right _ _)
          refine ⟨nn + 1, ?_⟩
          rw [hnn]
          simp only [List.range_succ_eq_map, List.map_cons, List.map_map]
          rw [List.append_assoc]
          congr 1
          simp only [List.cons_append, List.nil_append]
          congr 1
          · rw [pow_zero, mul_one, min_eq_left h120]
          · apply List.map_congr_left
            intro k _
            simp only [Function.comp_apply]
            exact min_double_cap d h0 k
      | some rid =>
        split_ifs with h1 h2
        · exact ⟨0, by simp⟩
        · exact absurd h2 (not_lt.mpr h0)
        · obtain ⟨nn, hnn⟩ := ih (attempt + 1) (min (d * 2) 120) (some rid)
            ⟨tr.sleeps ++ [d], tr.cancels ++ [(attempt, rid)], tr.requests + 1⟩
            (le_min (by linarith) (by norm_num)) (min_le_right _ _)
          refine ⟨nn + 1, ?_⟩
          rw [hnn]
          simp only [List.range_succ_eq_map, List.map_cons, List.map_map]
          rw [List.append_assoc]
          congr 1
          simp only [List.cons_append, List.nil_append]
          congr 1
          · rw [pow_zero, mul_one, min_eq_left h120]
          · apply List.map_congr_left
            intro k _
            simp only [Function.comp_apply]
            exact min_double_cap d h0 k

/-- Claim C4 (amended): for a configured initial delay `d` with
`0 ≤ d ≤ 120`, the `k`-th slept backoff delay of one spot acquisition is
`min (d * 2 ^ k) 120`; the slept sequence is therefore monotonically
non-decreasing and bounded above by 120.  (For `d > 120` the first slept
delay is `d` itself, uncapped — see `C4_delay_above_cap`.) -/
theorem C4_backoff_monotone_capped (env : Env) (config : EC2InstanceConfig)
    (h0 : 0 ≤ config.spot_retry_delay) (h120 : config.spot_retry_delay ≤ 120) :
    (∀ (k : Nat) (hk : k < (((launch_spot_instance env config).2).sleeps).length),
       (((launch_spot_instance env config).2).sleeps).get ⟨k, hk⟩
         = min (config.spot_retry_delay * 2 ^ k) 120) ∧
    (((launch_spot_instance env config).2).sleeps).Chain' (· ≤ ·) ∧
    (∀ x ∈ ((launch_spot_instance env config).2).sleeps, x ≤ 120) := by
  obtain ⟨n, hn⟩ := spotLoop_sleeps env config config.spot_max_retries.toNat
    config.spot_max_retries.toNat 0 config.spot_retry_delay none {} h0 h120
  have hn' : ((launch_spot_instance env config).2).sleeps
      = (List.range n).map (fun k => min (config.spot_retry_delay * 2 ^ k) 120) := by
    rw [launch_spot_instance, hn]
    rfl
  have hget : ∀ (k : Nat) (hk : k < (((launch_spot_instance env config).2).sleeps).length),
      (((launch_spot_instance env config).2).sleeps).get ⟨k, hk⟩
        = min (config.spot_retry_delay * 2 ^ k) 120 := by
    intro k hk
    have hk' : k < n := by
      have := hk
      rw [hn'] at this
      simpa using this
    simp only [hn', List.get_eq_getElem, List.getElem_map, List.getElem_range]
  refine ⟨hget, ?_, ?_⟩
  · rw [List.chain'_iff_get]
    intro i hi
    rw [hget i (by omega), hget (i + 1) (by omega)]
    have hmono : config.spot_retry_delay * 2 ^ i ≤ config.spot_retry_delay * 2 ^ (i + 1) :=
      mul_le_mul_of_nonneg_left
        (pow_le_pow_right₀ (by norm_num) (Nat.le_succ i)) h0
    exact min_le_min hmono le_rfl
  · intro x hx
    rw [hn'] at hx
    obtain ⟨k, _, hk⟩ := List.mem_map.mp hx
    rw [← hk]
    exact min_le_right _ _

/-- Witness for C4: three failing attempts with initial delay 30 sleep
`[30, 60]`, matching the capped doubling sequence. -/
theorem C4_backoff_monotone_capped_witness :
    (0 : Int) ≤ 30 ∧
    (((launch_spot_instance envAllFail
        { instance_type := "t3.micro", name := some "n" }).2).sleeps).Chain' (· ≤ ·) :=
  ⟨by decide,
   (C4_backoff_monotone_capped envAllFail
     { instance_type := "t3.micro", name := some "n" }
     (by decide) (by decide)).2.1⟩

/-! ### C6: at most max_retries attempts; exhaustion names the count -/

/-- Loop invariant for the spot retry loop: it makes at most `left`
further `request_spot_instances` calls, and (for a non-negative delay
and `left + attempt = m`) any error it raises is the exhaustion message
raised on the final attempt, after exactly `left` further calls. -/
theorem spotLoop_requests (env : Env) (config : EC2InstanceConfig) (m : Nat) :
    ∀ (left attempt : Nat) (d : Int) (lastReq : Option String) (tr : Trace),
    ((spotLoop env config m left attempt d lastReq tr).2).requests ≤ tr.requests + left ∧
    (0 ≤ d → left + attempt = m →
      ∀ msg, (spotLoop env config m left attempt d lastReq tr).1 = some (.error msg) →
        ((spotLoop env config m left attempt d lastReq tr).2).requests = tr.requests + left ∧
        ∃ e, msg = exhaustMsg m config.name e) := by
  intro left
  induction left with
  | zero =>
    intro attempt d lastReq tr
    refine ⟨by simp [spotLoop], fun _ _ msg hmsg => ?_⟩
    simp [spotLoop] at hmsg
  | succ n ih =>
    intro attempt d lastReq tr
    simp only [spotLoop]
    cases spotAttempt env config attempt lastReq with
    | success r =>
      dsimp only
      exact ⟨by omega, fun _ _ msg hmsg => by simp at hmsg⟩
    | failure lr e =>
      dsimp only
      cases lr with
      | none =>
        split_ifs with h1 h2
        · refine ⟨by dsimp only; omega, fun hd hinv msg hmsg => ?_⟩
          have hn : n = 0 := by omega
          simp only at hmsg
          injection hmsg with hmsg'
          injection hmsg' with hmsg''
          exact ⟨by dsimp only; omega, e, hmsg''.symm⟩
        · refine ⟨by dsimp only; omega, fun hd _ msg hmsg => ?_⟩
          exact absurd h2 (not_lt.mpr hd)
        · have := ih (attempt + 1) (min (d * 2) 120) none
            ⟨tr.sleeps ++ [d], tr.cancels, tr.requests + 1⟩
          refine ⟨by have := this.1; dsimp only at this ⊢; omega,
                  fun hd hinv msg hmsg => ?_⟩
          have h2' := this.2 (le_min (by linarith) (by norm_num)) (by omega) msg hmsg
          exact ⟨by have := h2'.1; dsimp only at this ⊢; omega, h2'.2⟩
      | some rid =>
        split_ifs with h1 h2
        · refine ⟨by dsimp only; omega, fun hd hinv msg hmsg => ?_⟩
          simp only at hmsg
          injection hmsg with hmsg'
          injection hmsg' with hmsg''
          exact ⟨by dsimp only; omega, e, hmsg''.symm⟩
        · refine ⟨by dsimp only; omega, fun hd _ msg hmsg => ?_⟩
          exact absurd h2 (not_lt.mpr hd)
        · have := ih (attempt + 1) (min (d * 2) 120) (some rid)
            ⟨tr.sleeps ++ [d], tr.cancels ++ [(attempt, rid)], tr.requests + 1⟩
          refine ⟨by have := this.1; dsimp only at this ⊢; omega,
                  fun hd hinv msg hmsg => ?_⟩
          have h2' := this.2 (le_min (by linarith) (by norm_num)) (by omega) msg hmsg
          exact ⟨by have := h2'.1; dsimp only at this ⊢; omega, h2'.2⟩

/-- Claim C6: one spot acquisition calls `request_spot_instances` at
most `spot_max_retries` times, and (for a non-negative configured
delay) the only error it can raise is the one raised when the final
allowed attempt fails — raised after exactly `spot_max_retries` calls
and spelling out the number of attempts and the last underlying
error. -/
theorem C6_retry_bound_and_exhaustion (env : Env) (config : EC2InstanceConfig)
    (hd : 0 ≤ config.spot_retry_delay) :
    ((launch_spot_instance env config).2).requests ≤ config.spot_max_retries.toNat ∧
    ∀ msg, (launch_spot_instance env config).1 = some (Except.error msg) →
      ((launch_spot_instance env config).2).requests = config.spot_max_retries.toNat ∧
      ∃ e, msg = exhaustMsg config.spot_max_retries.toNat config.name e := by
  have h := spotLoop_requests env config config.spot_max_retries.toNat
    config.spot_max_retries.toNat 0 config.spot_retry_delay none {}
  refine ⟨?_, fun msg hmsg => ?_⟩
  · have := h.1
    simpa [launch_spot_instance] using this
  · have := h.2 hd (by omega) msg (by simpa [launch_spot_instance] using hmsg)
    constructor
    · have := this.1
      simpa [launch_spot_instance] using this
    · exact this.2

/-- Witness for C6: two attempts, both failing, raise the message
naming 2 attempts and the last error. -/
theorem C6_retry_bound_and_exhaustion_witness :
    (0 : Int) ≤ cfgTwoRetries.spot_retry_delay ∧
    ((launch_spot_instance envAllFail cfgTwoRetries).2).requests
      = cfgTwoRetries.spot_max_retries.toNat ∧
    ∃ e, "All 2 spot instance attempts failed for n. Last error: reqfail"
      = exhaustMsg cfgTwoRetries.spot_max_retries.toNat cfgTwoRetries.name e :=
  ⟨by decide,
   (C6_retry_bound_and_exhaustion envAllFail cfgTwoRetries (by decide)).2
     "All 2 spot instance attempts failed for n. Last error: reqfail" rfl⟩

/-! ### C5 amended: which cancellations are issued -/

/-- On an attempt failure, the `spot_request_id` local seen by the
`except` handler is either the incoming (stale) one — exactly when
`request_spot_instances` itself raised in this attempt — or the id
obtained by this attempt's `request_spot_instances` call. -/
theorem spotAttempt_failure_cases (env : Env) (config : EC2InstanceConfig)
    (attempt : Nat) (lastReq : Option String) (lr : Option String) (e : String)
    (h : spotAttempt env config attempt lastReq = .failure lr e) :
    ((∃ e0, env.requestSpot attempt = .error e0) ∧ lr = lastReq) ∨
    (∃ rid, env.requestSpot attempt = .ok rid ∧ lr = some rid) := by
  unfold spotAttempt at h
  cases h1 : env.requestSpot attempt with
  | error e0 =>
    rw [h1] at h
    simp only at h
    injection h with h' _
    exact .inl ⟨⟨e0, rfl⟩, h'.symm⟩
  | ok rid =>
    rw [h1] at h
    simp only at h
    refine .inr ⟨rid, rfl, ?_⟩
    cases h2 : env.waitFulfilled attempt rid with
    | error e2 =>
      rw [h2] at h
      simp only at h
      injection h with h' _
      exact h'.symm
    | ok u =>
      rw [h2] at h
      simp only at h
      cases h3 : env.describeSpot attempt rid with
      | error e3 =>
        rw [h3] at h
        simp only at h
        injection h with h' _
        exact h'.symm
      | ok instId =>
        rw [h3] at h
        simp only at h
        cases h4 : env.waitRunning attempt instId with
        | error e4 =>
          rw [h4] at h
          simp only at h
          injection h with h' _
          exact h'.symm
        | ok u' =>
          rw [h4] at h
          simp only at h
          cases h5 : finalize_instance env attempt config instId "spot" with
          | error e5 =>
            rw [h5] at h
            simp only at h
            injection h with h' _
            exact h'.symm
          | ok r =>
            rw [h5] at h
            exact AttemptOutcome.noConfusion h

/-- Loop invariant for the cancellation calls: assuming every id the
incoming `spot_request_id` local may hold was obtained by an earlier
attempt's `request_spot_instances` call, the cancels appended by the
loop have strictly increasing attempt numbers (at most one per
attempt), each names an id obtained by `request_spot_instances` at that
attempt or an earlier one, and whenever `request_spot_instances`
succeeded at the cancelling attempt, the cancelled id is that
attempt's. -/
theorem spotLoop_cancels (env : Env) (config : EC2InstanceConfig) (m : Nat) :
    ∀ (left attempt : Nat) (d : Int) (lastReq : Option String) (tr : Trace),
    (∀ rid, lastReq = some rid → ∃ j, j < attempt ∧ env.requestSpot j = .ok rid) →
    ∃ newC, ((spotLoop env config m left attempt d lastReq tr).2).cancels
        = tr.cancels ++ newC ∧
      (∀ p ∈ newC, attempt ≤ p.1) ∧
      (newC.map Prod.fst).Chain' (· < ·) ∧
      (∀ p ∈ newC, ∃ j, j ≤ p.1 ∧ env.requestSpot j = .ok p.2) ∧
      (∀ p ∈ newC, ∀ rid, env.requestSpot p.1 = .ok rid → p.2 = rid) := by
  intro left
  induction left with
  | zero =>
    intro attempt d lastReq tr hlast
    exact ⟨[], by simp [spotLoop], by simp, by simp, by simp, by simp⟩
  | succ n ih =>
    intro attempt d lastReq tr hlast
    simp only [spotLoop]
    cases hA : spotAttempt env config attempt lastReq with
    | success r =>
      exact ⟨[], by simp, by simp, by simp, by simp, by simp⟩
    | failure lr e =>
      dsimp only
      have hcases := spotAttempt_failure_cases env config attempt lastReq lr e hA
      have hlr : ∀ rid, lr = some rid → ∃ j, j ≤ attempt ∧ env.requestSpot j = .ok rid := by
        intro rid hr
        rcases hcases with ⟨_, hst⟩ | ⟨rid0, hok, hst⟩
        · obtain ⟨j, hj, hjok⟩ := hlast rid (hst ▸ hr)
          exact ⟨j, Nat.le_of_lt hj, hjok⟩
        · rw [hst] at hr
          injection hr with hr'
          exact ⟨attempt, le_rfl, hr' ▸ hok⟩
      have hlrexact : ∀ rid, lr = some rid →
          ∀ rid', env.requestSpot attempt = .ok rid' → rid = rid' := by
        intro rid hr rid' hok'
        rcases hcases with ⟨⟨e0, herr⟩, _⟩ | ⟨rid0, hok, hst⟩
        · rw [herr] at hok'
          cases hok'
        · rw [hok] at hok'
          injection hok' with h12
          rw [hst] at hr
          injection hr with hr'
          rw [← hr', ← h12]
      have hlast' : ∀ rid, lr = some rid →
          ∃ j, j < attempt + 1 ∧ env.requestSpot j = .ok rid := by
        intro rid hr
        obtain ⟨j, hj, hjok⟩ := hlr rid hr
        exact ⟨j, by omega, hjok⟩
      cases lr with
      | none =>
        split_ifs with h1 h2
        · exact ⟨[], by simp, by simp, by simp, by simp, by simp⟩
        · exact ⟨[], by simp, by simp, by simp, by simp, by simp⟩
        · obtain ⟨newC, hc, hge, hchain, hobt, hex⟩ := ih (attempt + 1)
            (min (d * 2) 120) none
            ⟨tr.sleeps ++ [d], tr.cancels, tr.requests + 1⟩ hlast'
          refine ⟨newC, by simpa using hc, fun p hp => ?_, hchain, hobt, hex⟩
          have := hge p hp
          omega
      | some rid =>
        have hobt0 : ∃ j, j ≤ attempt ∧ env.requestSpot j = .ok rid := hlr rid rfl
        split_ifs with h1 h2
        · refine ⟨[(attempt, rid)], by simp, by simp, by simp, ?_, ?_⟩
          · intro p hp
            rw [List.mem_singleton] at hp
            subst hp
            exact hobt0
          · intro p hp rid' hok'
            rw [List.mem_singleton] at hp
            subst hp
            exact hlrexact rid rfl rid' hok'
        · refine ⟨[(attempt, rid)], by simp, by simp, by simp, ?_, ?_⟩
          · intro p hp
            rw [List.mem_singleton] at hp
            subst hp
            exact hobt0
          · intro p hp rid' hok'
            rw [List.mem_singleton] at hp
            subst hp
            exact hlrexact rid rfl rid' hok'
        · obtain ⟨newC, hc, hge, hchain, hobt, hex⟩ := ih (attempt + 1)
            (min (d * 2) 120) (some rid)
            ⟨tr.sleeps ++ [d], tr.cancels ++ [(attempt, rid)], tr.requests + 1⟩ hlast'
          refine ⟨(attempt, rid) :: newC, ?_, ?_, ?_, ?_, ?_⟩
          · simp only at hc
            rw [hc, List.append_assoc]
            rfl
          · intro p hp
            rcases List.mem_cons.mp hp with h | h
            · subst h
              exact le_rfl
            · have := hge p h
              omega
          · rw [List.map_cons, List.chain'_cons']
            refine ⟨?_, hchain⟩
            intro b hb
            have hbmem : b ∈ newC.map Prod.fst := List.mem_of_mem_head? hb
            obtain ⟨p, hpmem, hpfst⟩ := List.mem_map.mp hbmem
            have := hge p hpmem
            omega
          · intro p hp
            rcases List.mem_cons.mp hp with h | h
            · subst h
              exact hobt0
            · exact hobt p h
          · intro p hp rid' hok'
            rcases List.mem_cons.mp hp with h | h
            · subst h
              exact hlrexact rid rfl rid' hok'
            · exact hex p h rid' hok'

/-- An attempt run with the `spot_request_id` local unbound (`none`)
can only fail with `some rid` if its own `request_spot_instances` call
obtained `rid`: with no stale id around, the failure value pins the id
to this attempt. -/
theorem spotAttempt_none_failure_obtained (env : Env) (config : EC2InstanceConfig)
    (k : Nat) (rid : String) (e : String)
    (h : spotAttempt env config k none = .failure (some rid) e) :
    env.requestSpot k = .ok rid := by
  rcases spotAttempt_failure_cases env config k none (some rid) e h with
    ⟨⟨e0, herr⟩, hst⟩ | ⟨rid0, hok, hst⟩
  · exact Option.noConfusion hst
  · injection hst with h1
    rw [h1]
    exact hok

/-- Once `request_spot_instances` has succeeded in an attempt, the
attempt's outcome no longer depends on the incoming value of the
`spot_request_id` local (that local is only read when the request call
itself raised). -/
theorem spotAttempt_ok_independent (env : Env) (config : EC2InstanceConfig)
    (k : Nat) (rid : String) (h : env.requestSpot k = .ok rid)
    (lr1 lr2 : Option String) :
    spotAttempt env config k lr1 = spotAttempt env config k lr2 := by
  unfold spotAttempt
  rw [h]

/-- The cancellation list only grows: whatever the loop does, the
incoming trace's cancellations stay a prefix. -/
theorem spotLoop_cancels_mono (env : Env) (config : EC2InstanceConfig) (m : Nat) :
    ∀ (left attempt : Nat) (d : Int) (lastReq : Option String) (tr : Trace),
    ∃ newC, ((spotLoop env config m left attempt d lastReq tr).2).cancels
      = tr.cancels ++ newC := by
  intro left
  induction left with
  | zero => intro attempt d lastReq tr; exact ⟨[], by simp [spotLoop]⟩
  | succ n ih =>
    intro attempt d lastReq tr
    simp only [spotLoop]
    cases spotAttempt env config attempt lastReq with
    | success r => exact ⟨[], by simp⟩
    | failure lr e =>
      dsimp only
      cases lr with
      | none =>
        split_ifs
        · exact ⟨[], by simp⟩
        · exact ⟨[], by simp⟩
        · obtain ⟨newC, hc⟩ := ih (attempt + 1) (min (d * 2) 120) none
            ⟨tr.sleeps ++ [d], tr.cancels, tr.requests + 1⟩
          exact ⟨newC, by simpa using hc⟩
      | some rid =>
        split_ifs
        · exact ⟨[(attempt, rid)], rfl⟩
        · exact ⟨[(attempt, rid)], rfl⟩
        · obtain ⟨newC, hc⟩ := ih (attempt + 1) (min (d * 2) 120) (some rid)
            ⟨tr.sleeps ++ [d], tr.cancels ++ [(attempt, rid)], tr.requests + 1⟩
          refine ⟨(attempt, rid) :: newC, ?_⟩
          rw [hc, List.append_assoc]
          rfl

/-- The request counter only grows. -/
theorem spotLoop_requests_mono (env : Env) (config : EC2InstanceConfig) (m : Nat) :
    ∀ (left attempt : Nat) (d : Int) (lastReq : Option String) (tr : Trace),
    tr.requests ≤ ((spotLoop env config m left attempt d lastReq tr).2).requests := by
  intro left
  induction left with
  | zero => intro attempt d lastReq tr; simp [spotLoop]
  | succ n ih =>
    intro attempt d lastReq tr
    simp only [spotLoop]
    cases spotAttempt env config attempt lastReq with
    | success r => dsimp only; omega
    | failure lr e =>
      dsimp only
      cases lr with
      | none =>
        dsimp only
        split_ifs
        · dsimp only; omega
        · dsimp only; omega
        · have := ih (attempt + 1) (min (d * 2) 120) none
            ⟨tr.sleeps ++ [d], tr.cancels, tr.requests + 1⟩
          dsimp only at this
          omega
      | some rid =>
        dsimp only
        split_ifs
        · dsimp only; omega
        · dsimp only; omega
        · have := ih (attempt + 1) (min (d * 2) 120) (some rid)
            ⟨tr.sleeps ++ [d], tr.cancels ++ [(attempt, rid)], tr.requests + 1⟩
          dsimp only at this
          omega

/-- Occurrence of the cancellation: every attempt the loop actually
executes (the window of `requests` consumed) that obtains an id and
then fails has a cancellation for that id in the final trace. -/
theorem spotLoop_cancel_occurrence (env : Env) (config : EC2InstanceConfig) (m : Nat) :
    ∀ (left attempt : Nat) (d : Int) (lastReq : Option String) (tr : Trace)
      (k : Nat), attempt ≤ k →
    k < attempt + (((spotLoop env config m left attempt d lastReq tr).2).requests
        - tr.requests) →
    ∀ (rid e : String), spotAttempt env config k none = .failure (some rid) e →
    (k, rid) ∈ ((spotLoop env config m left attempt d lastReq tr).2).cancels := by
  intro left
  induction left with
  | zero =>
    intro attempt d lastReq tr k hk1 hk2 rid e hfail
    simp only [spotLoop] at hk2
    exact absurd hk2 (by omega)
  | succ n ih =>
    intro attempt d lastReq tr k hk1 hk2 rid e hfail
    simp only [spotLoop] at hk2 ⊢
    cases hA : spotAttempt env config attempt lastReq with
    | success r =>
      rw [hA] at hk2
      dsimp only at hk2
      have hkeq : k = attempt := by omega
      subst hkeq
      have hok := spotAttempt_none_failure_obtained env config k rid e hfail
      have hInd := spotAttempt_ok_independent env config k rid hok lastReq none
      rw [hInd, hfail] at hA
      exact AttemptOutcome.noConfusion hA
    | failure lr e' =>
      rw [hA] at hk2
      dsimp only at hk2 ⊢
      by_cases hkeq : k = attempt
      · subst hkeq
        have hok := spotAttempt_none_failure_obtained env config k rid e hfail
        have hInd := spotAttempt_ok_independent env config k rid hok lastReq none
        rw [hInd, hfail] at hA
        injection hA with h1 h2
        subst h1
        dsimp only at hk2 ⊢
        split_ifs with hf1 hf2
        · simp
        · simp
        · obtain ⟨newC, hmono⟩ := spotLoop_cancels_mono env config m n (k + 1)
            (min (d * 2) 120) (some rid)
            ⟨tr.sleeps ++ [d], tr.cancels ++ [(k, rid)], tr.requests + 1⟩
          rw [hmono]
          simp
      · have hlt : attempt < k := by omega
        cases lr with
        | none =>
          dsimp only at hk2 ⊢
          split_ifs at hk2 ⊢ with hf1 hf2
          · dsimp only at hk2
            exact absurd hk2 (by omega)
          · dsimp only at hk2
            exact absurd hk2 (by omega)
          · have hmono := spotLoop_requests_mono env config m n (attempt + 1)
              (min (d * 2) 120) none ⟨tr.sleeps ++ [d], tr.cancels, tr.requests + 1⟩
            dsimp only at hmono
            exact ih (attempt + 1) (min (d * 2) 120) none
              ⟨tr.sleeps ++ [d], tr.cancels, tr.requests + 1⟩ k (by omega)
              (by dsimp only; omega) rid e hfail
        | some rid' =>
          dsimp only at hk2 ⊢
          split_ifs at hk2 ⊢ with hf1 hf2
          · dsimp only at hk2
            exact absurd hk2 (by omega)
          · dsimp only at hk2
            exact absurd hk2 (by omega)
          · have hmono := spotLoop_requests_mono env config m n (attempt + 1)
              (min (d * 2) 120) (some rid')
              ⟨tr.sleeps ++ [d], tr.cancels ++ [(attempt, rid')], tr.requests + 1⟩
            dsimp only at hmono
            exact ih (attempt + 1) (min (d * 2) 120) (some rid')
              ⟨tr.sleeps ++ [d], tr.cancels ++ [(attempt, rid')], tr.requests + 1⟩ k
              (by omega) (by dsimp only; omega) rid e hfail

/-- Claim C5 (amended): on every attempt the acquisition actually
executes in which a provisional request id was obtained and the attempt
then failed, exactly one cancellation call is issued at that attempt
and it names exactly that id, before the next attempt begins or before
the acquisition raises: conjunct 4 (occurrence) produces the
cancellation for every such attempt — `spotAttempt env config k none`
failing with `some rid` says precisely that attempt `k`'s own API calls
obtained `rid` and then failed, the `none` ruling out a stale id —
conjunct 1 (strictly increasing attempt numbers) makes it unique, and
conjunct 3 pins its id; conjunct 2 adds that every cancelled id was
obtained by `request_spot_instances` at that attempt or an earlier one.
The original claim's second half is false: an attempt that obtained NO
id still issues a cancellation — for the stale id of an earlier
attempt — whenever one exists; see `C5_stale_cancel`. -/
theorem C5_cancellation_discipline (env : Env) (config : EC2InstanceConfig) :
    ((((launch_spot_instance env config).2).cancels).map Prod.fst).Chain' (· < ·) ∧
    (∀ p ∈ ((launch_spot_instance env config).2).cancels,
       ∃ j, j ≤ p.1 ∧ env.requestSpot j = .ok p.2) ∧
    (∀ p ∈ ((launch_spot_instance env config).2).cancels,
       ∀ rid, env.requestSpot p.1 = .ok rid → p.2 = rid) ∧
    (∀ k, k < ((launch_spot_instance env config).2).requests →
       ∀ (rid e : String), spotAttempt env config k none = .failure (some rid) e →
         (k, rid) ∈ ((launch_spot_instance env config).2).cancels) := by
  obtain ⟨newC, hc, _, hchain, hobt, hex⟩ :=
    spotLoop_cancels env config config.spot_max_retries.toNat
      config.spot_max_retries.toNat 0 config.spot_retry_delay none {}
      (fun rid h => by cases h)
  have hc' : ((launch_spot_instance env config).2).cancels = newC := by
    rw [launch_spot_instance, hc]
    rfl
  refine ⟨?_, ?_, ?_, ?_⟩
  · rw [hc']
    exact hchain
  · rw [hc']
    exact hobt
  · rw [hc']
    exact hex
  · intro k hk rid e hfail
    rw [launch_spot_instance] at hk ⊢
    refine spotLoop_cancel_occurrence env config config.spot_max_retries.toNat
      config.spot_max_retries.toNat 0 config.spot_retry_delay none {} k
      (Nat.zero_le k) ?_ rid e hfail
    simpa using hk

/-- Witness for C5: in the stale-cancel scenario, the id cancelled at
attempt 1 was obtained at attempt 0; and attempt 0, which obtained
`"r1"` and failed waiting for fulfillment, has its cancellation for
`"r1"` in the trace. -/
theorem C5_cancellation_discipline_witness :
    (∃ j, j ≤ 1 ∧ envStale.requestSpot j = .ok "r1") ∧
    (0, "r1") ∈ ((launch_spot_instance envStale cfgTwoRetries).2).cancels :=
  ⟨(C5_cancellation_discipline envStale cfgTwoRetries).2.1 (1, "r1") (by decide),
   (C5_cancellation_discipline envStale cfgTwoRetries).2.2.2 0 (by decide)
     "r1" "wffail" (by decide)⟩

/-! ### C1 amended: one result per spec, found by name -/

/-- Inserting a fresh key appends it. -/
theorem dictInsert_of_not_mem (d : List (String × Bool)) (k : String) (v : Bool)
    (h : ∀ p ∈ d, p.1 ≠ k) : dictInsert d k v = d ++ [(k, v)] := by
  unfold dictInsert
  have hany : ¬(d.any (fun p => p.1 = k) = true) := by
    simp only [List.any_eq_true, decide_eq_true_eq, not_exists]
    intro p
    rw [not_and]
    exact h p
  rw [if_neg hany]

/-- The keys of a dict after insertion. -/
theorem keys_dictInsert (d : List (String × Bool)) (k : String) (v : Bool) :
    (dictInsert d k v).map Prod.fst
      = if k ∈ d.map Prod.fst then d.map Prod.fst else d.map Prod.fst ++ [k] := by
  unfold dictInsert
  by_cases h : k ∈ d.map Prod.fst
  · have hany : d.any (fun p => p.1 = k) = true := by
      simp only [List.any_eq_true, decide_eq_true_eq]
      obtain ⟨p, hp, hpk⟩ := List.mem_map.mp h
      exact ⟨p, hp, hpk⟩
    rw [if_pos hany, if_pos h, List.map_map]
    apply List.map_congr_left
    intro p hp
    simp only [Function.comp_apply]
    split_ifs with hpk
    · rw [← hpk]
    · rfl
  · have hany : ¬(d.any (fun p => p.1 = k) = true) := by
      simp only [List.any_eq_true, decide_eq_true_eq, not_exists]
      intro p
      rw [not_and]
      intro hp hpk
      exact h (List.mem_map.mpr ⟨p, hp, hpk⟩)
    rw [if_neg hany, if_neg h, List.map_append]
    rfl

/-- When all submitted keys are fresh and pairwise distinct, the
cleanup fold appends one entry per submission. -/
theorem cleanup_foldl_fresh (termOk : String → Bool) (ids : List String) :
    ∀ (order : List Nat) (d : List (String × Bool)),
    (∀ i ∈ order, ∀ p ∈ d, p.1 ≠ ids.getD i "") →
    (∀ i ∈ order, ∀ j ∈ order, i ≠ j → ids.getD i "" ≠ ids.getD j "") →
    order.Nodup →
    order.foldl (fun d i =>
        dictInsert d (ids.getD i "") (terminate_instance termOk (ids.getD i ""))) d
      = d ++ order.map (fun i => (ids.getD i "", termOk (ids.getD i ""))) := by
  intro order
  induction order with
  | nil => intro d _ _ _; simp
  | cons i rest ih =>
    intro d hfresh hdist hnodup
    simp only [List.foldl_cons, List.map_cons]
    rw [dictInsert_of_not_mem _ _ _ (fun p hp => hfresh i (List.mem_cons_self i rest) p hp)]
    rw [ih (d ++ [(ids.getD i "", terminate_instance termOk (ids.getD i ""))]) ?_ ?_ ?_]
    · rw [List.append_assoc]
      rfl
    · intro j hj p hp
      rcases List.mem_append.mp hp with hpd | hpi
      · exact hfresh j (List.mem_cons_of_mem _ hj) p hpd
      · rw [List.mem_singleton] at hpi
        subst hpi
        have hij : i ≠ j := by
          intro hij
          rw [hij] at hnodup
          exact (List.nodup_cons.mp hnodup).1 hj
        exact hdist i (List.mem_cons_self i rest) j (List.mem_cons_of_mem _ hj) hij
    · intro a ha b hb
      exact hdist a (List.mem_cons_of_mem _ ha) b (List.mem_cons_of_mem _ hb)
    · exact (List.nodup_cons.mp hnodup).2

/-- Claim C7: for pairwise distinct identifiers and any completion
order, the cleanup mapping is (as a multiset) exactly one entry per
identifier, carrying that identifier's termination outcome: it has
exactly M entries, every identifier appears with its outcome (`false`
when termination failed), and nothing else appears.  (The model never
raises: `terminate_instance` converts every exception to `False`.) -/
theorem C7_cleanup_complete (termOk : String → Bool) (ids : List String)
    (order : List Nat) (hids : ids.Nodup)
    (hperm : order.Perm (List.range ids.length)) :
    (cleanup_instances termOk ids order).length = ids.length ∧
    (∀ a ∈ ids, (a, termOk a) ∈ cleanup_instances termOk ids order) ∧
    (∀ p ∈ cleanup_instances termOk ids order, p.1 ∈ ids ∧ p.2 = termOk p.1) := by
  have hbound : ∀ i ∈ order, i < ids.length := by
    intro i hi
    exact List.mem_range.mp (hperm.mem_iff.mp hi)
  have hdist : ∀ i ∈ order, ∀ j ∈ order, i ≠ j → ids.getD i "" ≠ ids.getD j "" := by
    intro i hi j hj hij heq
    rw [List.getD_eq_getElem _ _ (hbound i hi), List.getD_eq_getElem _ _ (hbound j hj)] at heq
    have heq2 : ids.get ⟨i, hbound i hi⟩ = ids.get ⟨j, hbound j hj⟩ := by
      simp only [List.get_eq_getElem]
      exact heq
    have hfin := List.nodup_iff_injective_get.mp hids heq2
    exact hij (congrArg (fun x : Fin ids.length => x.val) hfin)
  have hnodupo : order.Nodup := (hperm.nodup_iff).mpr (List.nodup_range _)
  have hfold := cleanup_foldl_fresh termOk ids order [] (by simp) hdist hnodupo
  have hclean : cleanup_instances termOk ids order
      = order.map (fun i => (ids.getD i "", termOk (ids.getD i ""))) := by
    unfold cleanup_instances
    rw [hfold]
    rfl
  have hrange : (List.range ids.length).map
        (fun i => (ids.getD i "", termOk (ids.getD i "")))
      = ids.map (fun a => (a, termOk a)) := by
    apply List.ext_getElem
    · simp
    · intro k h1 h2
      simp only [List.getElem_map, List.getElem_range]
      have hk : k < ids.length := by simpa using h2
      rw [List.getD_eq_getElem _ _ hk]
  have hfullperm : (cleanup_instances termOk ids order).Perm
      (ids.map (fun a => (a, termOk a))) := by
    rw [hclean, ← hrange]
    exact hperm.map _
  refine ⟨?_, ?_, ?_⟩
  · rw [hfullperm.length_eq, List.length_map]
  · intro a ha
    exact hfullperm.mem_iff.mpr (List.mem_map.mpr ⟨a, ha, rfl⟩)
  · intro p hp
    obtain ⟨a, ha, hap⟩ := List.mem_map.mp (hfullperm.subset hp)
    rw [← hap]
    exact ⟨ha, rfl⟩

/-- Termination oracle for the cleanup witness scenario: `i-aaa`
terminates, everything else raises. -/
def termOkW : String → Bool := fun a => a = "i-aaa"

/-- Witness for C7: the failing identifier maps to `false` and is
present in the mapping. -/
theorem C7_cleanup_complete_witness :
    ("i-bbb", termOkW "i-bbb") ∈ cleanup_instances termOkW ["i-aaa", "i-bbb"] [1, 0] :=
  (C7_cleanup_complete termOkW ["i-aaa", "i-bbb"] [1, 0]
    (by decide) (by decide)).2.1 "i-bbb" (by decide)

/-- The keys of the cleanup fold stay duplicate-free. -/
theorem cleanup_foldl_keys_nodup (termOk : String → Bool) (ids : List String) :
    ∀ (order : List Nat) (d : List (String × Bool)),
    (d.map Prod.fst).Nodup →
    ((order.foldl (fun d i =>
        dictInsert d (ids.getD i "") (terminate_instance termOk (ids.getD i ""))) d).map
      Prod.fst).Nodup := by
  intro order
  induction order with
  | nil => intro d hd; exact hd
  | cons i rest ih =>
    intro d hd
    rw [List.foldl_cons]
    apply ih
    rw [keys_dictInsert]
    split_ifs with h
    · exact hd
    · rw [List.nodup_append]
      refine ⟨hd, List.nodup_singleton _, fun a ha hk => ?_⟩
      rw [List.mem_singleton.mp hk] at ha
      exact h ha

/-- Membership in the keys of the cleanup fold. -/
theorem cleanup_foldl_keys_mem (termOk : String → Bool) (ids : List String) :
    ∀ (order : List Nat) (d : List (String × Bool)) (a : String),
    (a ∈ (order.foldl (fun d i =>
        dictInsert d (ids.getD i "") (terminate_instance termOk (ids.getD i ""))) d).map
      Prod.fst
      ↔ a ∈ d.map Prod.fst ∨ ∃ i ∈ order, ids.getD i "" = a) := by
  intro order
  induction order with
  | nil => intro d a; simp
  | cons i rest ih =>
    intro d a
    rw [List.foldl_cons, ih, keys_dictInsert]
    split_ifs with h
    · constructor
      · rintro (hd | ⟨j, hj, hja⟩)
        · exact .inl hd
        · exact .inr ⟨j, List.mem_cons_of_mem _ hj, hja⟩
      · rintro (hd | ⟨j, hj, hja⟩)
        · exact .inl hd
        · rcases List.mem_cons.mp hj with rfl | hj'
          · exact .inl (hja ▸ h)
          · exact .inr ⟨j, hj', hja⟩
    · constructor
      · rintro (hd | ⟨j, hj, hja⟩)
        · rcases List.mem_append.mp hd with hd' | hk
          · exact .inl hd'
          · rw [List.mem_singleton] at hk
            exact .inr ⟨i, List.mem_cons_self i rest, hk.symm⟩
        · exact .inr ⟨j, List.mem_cons_of_mem _ hj, hja⟩
      · rintro (hd | ⟨j, hj, hja⟩)
        · exact .inl (List.mem_append.mpr (.inl hd))
        · rcases List.mem_cons.mp hj with rfl | hj'
          · exact .inl (List.mem_append.mpr (.inr (List.mem_singleton.mpr hja.symm)))
          · exact .inr ⟨j, hj', hja⟩

/-- Claim C10: whatever the completion order, the cleanup mapping has
exactly one entry per distinct identifier of the submitted list
(duplicate-free keys covering exactly the submitted identifiers), so a
list containing duplicates yields strictly fewer entries than its
length. -/
theorem C10_cleanup_one_entry_per_distinct_id (termOk : String → Bool)
    (ids : List String) (order : List Nat)
    (hperm : order.Perm (List.range ids.length)) :
    (cleanup_instances termOk ids order).length = ids.dedup.length ∧
    ((cleanup_instances termOk ids order).map Prod.fst).Nodup ∧
    (∀ a, a ∈ (cleanup_instances termOk ids order).map Prod.fst ↔ a ∈ ids) ∧
    (¬ ids.Nodup →
      (cleanup_instances termOk ids order).length < ids.length) := by
  have hkeysnodup : ((cleanup_instances termOk ids order).map Prod.fst).Nodup := by
    unfold cleanup_instances
    exact cleanup_foldl_keys_nodup termOk ids order [] (by simp)
  have hmem : ∀ a, a ∈ (cleanup_instances termOk ids order).map Prod.fst ↔ a ∈ ids := by
    intro a
    unfold cleanup_instances
    rw [cleanup_foldl_keys_mem termOk ids order [] a]
    simp only [List.map_nil, List.not_mem_nil, false_or]
    constructor
    · rintro ⟨i, hi, hia⟩
      have hil : i < ids.length := List.mem_range.mp (hperm.mem_iff.mp hi)
      rw [List.getD_eq_getElem _ _ hil] at hia
      rw [← hia]
      exact List.getElem_mem hil
    · intro ha
      obtain ⟨i, hil, hia⟩ := List.mem_iff_getElem.mp ha
      refine ⟨i, hperm.mem_iff.mpr (List.mem_range.mpr hil), ?_⟩
      rw [List.getD_eq_getElem _ _ hil]
      exact hia
  have hkeysperm : ((cleanup_instances termOk ids order).map Prod.fst).Perm ids.dedup :=
    (List.perm_ext_iff_of_nodup hkeysnodup (List.nodup_dedup ids)).mpr
      (fun a => by rw [hmem a, List.mem_dedup])
  have hlen : (cleanup_instances termOk ids order).length = ids.dedup.length := by
    rw [← hkeysperm.length_eq, List.length_map]
  refine ⟨hlen, hkeysnodup, hmem, ?_⟩
  intro hnd
  have hle : ids.dedup.length ≤ ids.length := (List.dedup_sublist ids).length_le
  have hne : ids.dedup.length ≠ ids.length := by
    intro heq
    exact hnd (List.dedup_eq_self.mp ((List.dedup_sublist ids).eq_of_length heq))
  omega

/-- Witness for C10: a three-element list with a duplicate yields a
two-entry mapping. -/
theorem C10_cleanup_one_entry_per_distinct_id_witness :
    (cleanup_instances (fun _ => true) ["a", "b", "a"] [0, 1, 2]).length
      < (["a", "b", "a"] : List String).length :=
  (C10_cleanup_one_entry_per_distinct_id (fun _ => true) ["a", "b", "a"] [0, 1, 2]
    (by decide)).2.2.2 (by decide)

end Provisioner
